import Mathlib

/-!
Verification of the conversation/session core of the LLMChat repository.

The Python source is shallowly embedded: each `def` below mirrors one
function of the repository (file and line references in the doc comments),
with Streamlit session state made explicit as an `AppState` value, the
wall clock passed as a rational-number argument, and the HTTP layer
replaced by an explicit outcome datatype.  Theorems at the end of the
file settle the frozen claims about this code.
-/

namespace LLMChat

/-- A chat message: a Python dict with "role" and "content" keys
(the shape used throughout `src/utils` and validated by `import_chat`). -/
structure Message where
  role : String
  content : String
deriving DecidableEq, Repr

/-- UI language; the selectbox in `main.py` offers exactly "ru" and "en". -/
inductive Lang where
  | en
  | ru
deriving DecidableEq, Repr

namespace AppConfig

/-- `AppConfig.MAX_HISTORY_LENGTH` in `src/config/app_config.py` line 40. -/
def MAX_HISTORY_LENGTH : Nat := 20

/-- `AppConfig.MAX_CHATS` in `src/config/app_config.py` line 41. -/
def MAX_CHATS : Nat := 50

/-- `AppConfig.DEFAULT_SYSTEM_MESSAGE` in `src/config/app_config.py` lines 10-13. -/
def DEFAULT_SYSTEM_MESSAGE : Lang → String
  | .en => "You are a helpful AI assistant."
  | .ru => "Я - полезный ИИ-ассистент. Я говорю по-русски и стараюсь помогать людям."

end AppConfig

/-- The comprehension on line 13 of `src/utils/message_handler.py`:
the messages whose role equals "system". -/
def systemPart (messages : List Message) : List Message :=
  messages.filter (fun msg => msg.role == "system")

/-- The comprehension on line 14 of `src/utils/message_handler.py`:
the messages whose role differs from "system". -/
def otherPart (messages : List Message) : List Message :=
  messages.filter (fun msg => msg.role != "system")

/-- `trim_message_history` in `src/utils/message_handler.py` lines 11-16:
system messages kept in full, then the Python slice
`other_messages[-MAX_HISTORY_LENGTH:]`, which for the positive constant 20
is the last 20 elements, i.e. `drop (length - 20)`. -/
def trim_message_history (messages : List Message) : List Message :=
  let system_message := systemPart messages
  let other_messages := otherPart messages
  system_message ++ other_messages.drop (other_messages.length - AppConfig.MAX_HISTORY_LENGTH)

/-- The last `n` elements of a list, written the way the spec reads
("the last maxHistoryLength non-system messages, in their original order"). -/
def takeLast (n : Nat) (l : List α) : List α :=
  (l.reverse.take n).reverse


/-- Lexicographic (code-point) order on character lists: the order Python
uses when comparing strings, hence the order `sorted(chats.keys())` sorts by. -/
def lexLe : List Char → List Char → Bool
  | [], _ => true
  | _ :: _, [] => false
  | a :: as, b :: bs => if a = b then lexLe as bs else decide (a < b)

/-- Python string comparison, as used by `sorted` on the chat-store keys. -/
def pyStrLe (a b : String) : Bool :=
  lexLe a.data b.data

/-- `pyStrLe` as a relation, for use with `List.insertionSort`. -/
def strLeRel (a b : String) : Prop :=
  pyStrLe a b = true

instance : DecidableRel strLeRel :=
  fun a b => inferInstanceAs (Decidable (pyStrLe a b = true))


/-- A successfully parsed chat-store document: either a JSON object
(a mapping from names to message lists) or some other JSON value. -/
inductive LoadedDoc where
  | dict (entries : List (String × List Message))
  | nonDict

/-- Outcome of trying to read and parse the chat-store file in
`load_saved_chats` (`src/utils/chat_manager.py` lines 13-16): the file may
be absent, reading it may fail, `json.load` may fail, or it yields a
parsed document. -/
inductive LoadInput where
  | missingFile
  | readFailure
  | parseFailure
  | parsed (doc : LoadedDoc)

/-- `load_saved_chats` in `src/utils/chat_manager.py` lines 11-29.
Returns the loaded store together with the flag saying whether an error
notice was shown via `st.error`.  A missing file skips the body and falls
through to the fallback with no notice; a read failure, a parse failure and
a non-mapping document (the raised `ValueError`) are caught by the
`except` clause, which shows the notice and falls through to the fallback.
A parsed mapping with more than `MAX_CHATS` entries has the entries with
the `len - MAX_CHATS` smallest keys (`sorted(chats.keys())[:...]`) deleted. -/
def load_saved_chats (inp : LoadInput) : List (String × List Message) × Bool :=
  match inp with
  | .missingFile => ([("Default", [])], false)
  | .readFailure => ([("Default", [])], true)
  | .parseFailure => ([("Default", [])], true)
  | .parsed .nonDict => ([("Default", [])], true)
  | .parsed (.dict chats) =>
      if AppConfig.MAX_CHATS < chats.length then
        let oldest := (List.insertionSort strLeRel (chats.map Prod.fst)).take
          (chats.length - AppConfig.MAX_CHATS)
        (chats.filter fun kv => !decide (kv.1 ∈ oldest), false)
      else (chats, false)

/-- The whitespace characters stripped by Python `str.strip()` (ASCII range). -/
def isPySpace (c : Char) : Bool :=
  c = ' ' || c = '\t' || c = '\n' || c = '\x0d' || c = '\x0b' || c = '\x0c'

/-- Python `str.strip()`: remove leading and trailing whitespace. -/
def pyStrip (s : String) : String :=
  ⟨((s.data.dropWhile isPySpace).reverse.dropWhile isPySpace).reverse⟩

/-- Python `str.capitalize()` on ASCII text: first character uppercased,
the rest lowercased (the roles "user" and "assistant" are ASCII). -/
def pyCapitalize (s : String) : String :=
  match s.data with
  | [] => ⟨[]⟩
  | c :: cs => ⟨c.toUpper :: cs.map Char.toLower⟩

/-- The per-message prompt line `f"{msg['role'].capitalize()}: {msg['content']}"`
from `src/utils/message_handler.py` line 27. -/
def promptLine (msg : Message) : String :=
  pyCapitalize msg.role ++ ": " ++ msg.content

/-- The list of prompt lines: one line per non-system message, in order
(`src/utils/message_handler.py` lines 26-30). -/
def promptLines (messages : List Message) : List String :=
  (messages.filter fun msg => msg.role != "system").map promptLine

/-- The prompt assembled by `get_model_response`
(`src/utils/message_handler.py` lines 26-33): the newline-join of the
per-message lines, plus — when the last message of the full list has role
"user" — that message's content again as a trailing "User: ..." line. -/
def assembled_prompt (messages : List Message) : String :=
  let prompt := String.intercalate "\n" (promptLines messages)
  match messages.getLast? with
  | some msg => if msg.role = "user" then prompt ++ "\nUser: " ++ msg.content else prompt
  | none => prompt

/-- `validate_message` in `src/utils/message_handler.py` lines 81-87. -/
def validate_message (content : String) : Bool :=
  if content = "" || (pyStrip content).length = 0 then false
  else if content.length > 4096 then false
  else true

/-- `rate_limit_check` in `src/utils/message_handler.py` lines 68-79, with
`st.session_state.last_request_time` passed in explicitly (absent key =
`none`) and the wall clock as a rational argument.  Returns the decision
and the new value of `last_request_time`. -/
def rate_limit_check (last_request_time : Option ℚ) (current_time : ℚ) : Bool × Option ℚ :=
  match last_request_time with
  | none => (true, some current_time)
  | some last =>
      if current_time - last < 1 then (false, some last)
      else (true, some current_time)

/-- Processing a sequence of `rate_limit_check` calls: the list of
(call time, decision) pairs, threading `last_request_time` through. -/
def rateTrace (last : Option ℚ) : List ℚ → List (ℚ × Bool)
  | [] => []
  | t :: ts =>
      let r := rate_limit_check last t
      (t, r.1) :: rateTrace r.2 ts

/-- The `last_request_time` left behind by a sequence of `rate_limit_check`
calls. -/
def rateFinal (last : Option ℚ) : List ℚ → Option ℚ
  | [] => last
  | t :: ts => rateFinal (rate_limit_check last t).2 ts

/-- The time of the most recent allowed call, read off a list of
(call time, decision) pairs, starting from `init`. -/
def lastAllowedTime (init : Option ℚ) (events : List (ℚ × Bool)) : Option ℚ :=
  events.foldl (fun acc e => if e.2 then some e.1 else acc) init

/-- The outcome of the HTTP completion call made by `get_model_response`
(`src/utils/message_handler.py` lines 21-58): the API key may be absent,
`requests.post` may time out or fail (connection failure, or a non-2xx
status raised by `raise_for_status`), `response.json()` may fail, or a
parsed body comes back whose optional "choices" field holds a list of
texts (`choices[i]["text"]`). -/
inductive ApiOutcome where
  | noApiKey
  | timeout
  | requestError
  | malformedBody
  | body (choices : Option (List String))

/-- `get_model_response` in `src/utils/message_handler.py` lines 18-66,
reduced to its observable result: every failure branch is caught by an
`except` clause (lines 60-65) that shows a notice and returns `None`;
a parsed body is returned as-is. -/
def get_model_response (outcome : ApiOutcome) : Option (Option (List String)) :=
  match outcome with
  | .noApiKey => none
  | .timeout => none
  | .requestError => none
  | .malformedBody => none
  | .body choices => some choices

/-- Runtime chat-store: Python dict from chat name to message list.  The
key type is `Option String` because `create_new_chat(None)` can store an
entry under the Python key `None` (see `create_new_chat`). -/
abbrev Store : Type :=
  List (Option String × List Message)

/-- Dict assignment `d[k] = v`: replace in place if the key is present,
else append (Python dicts preserve insertion order). -/
def storePut (store : Store) (k : Option String) (v : List Message) : Store :=
  if store.any (fun kv => kv.1 == k) then
    store.map fun kv => if kv.1 == k then (k, v) else kv
  else store ++ [(k, v)]

/-- The Streamlit session state fields the core reads and writes
(`init_session_state` in `src/main.py` lines 28-54). -/
structure AppState where
  chats : Store
  current_chat : Option String
  messages : List Message
  language : Lang
  last_request_time : Option ℚ
  is_chat_input_disabled : Bool

/-- The text extraction of `src/main.py` lines 246-249:
`response` must be truthy with a truthy "choices" list, then
`choices[0]["text"]` is stripped; an empty strip means no message. -/
def extractAssistantText (response : Option (Option (List String))) : Option String :=
  match response with
  | none => none
  | some choices =>
      match choices with
      | none => none
      | some [] => none
      | some (text :: _) =>
          let stripped := pyStrip text
          if stripped = "" then none else some stripped

/-- `handle_user_input` in `src/main.py` lines 229-261, instrumented:
besides the final state it returns the list of stores passed to
`save_chats` and whether the completion request was issued.  The
validation and rate-limit guard (line 231) short-circuits exactly as in
Python: an invalid message never reaches `rate_limit_check`. -/
def handle_user_input (s : AppState) (user_input : String) (now : ℚ)
    (outcome : ApiOutcome) : AppState × List Store × Bool :=
  if validate_message user_input = false then (s, [], false)
  else
    let r := rate_limit_check s.last_request_time now
    let s0 := { s with last_request_time := r.2 }
    if r.1 = false then (s0, [], false)
    else
      let messages1 := s0.messages ++ [⟨"user", user_input⟩]
      let chats1 := storePut s0.chats s0.current_chat (trim_message_history messages1)
      let response := get_model_response outcome
      match extractAssistantText response with
      | some text =>
          let messages2 := messages1 ++ [⟨"assistant", text⟩]
          let chats2 := storePut chats1 s0.current_chat (trim_message_history messages2)
          ({ s0 with messages := messages2, chats := chats2, is_chat_input_disabled := false },
            [chats1, chats2], true)
      | none =>
          ({ s0 with messages := messages1, chats := chats1, is_chat_input_disabled := false },
            [chats1], true)

/-- `generate_chat_name` in `src/utils/chat_manager.py` lines 40-44, with
the formatted local time passed in. -/
def generate_chat_name (chat_count : Nat) (timestamp : String) : String :=
  "Chat " ++ toString (chat_count + 1) ++ " (" ++ timestamp ++ ")"

/-- The name sanitisation on line 49 of `src/utils/chat_manager.py`:
keep alphanumeric characters and " -_()", then strip. -/
def sanitize_chat_name (name : String) : String :=
  pyStrip ⟨name.data.filter fun c => c.isAlphanum || c = ' ' || c = '-' || c = '_'
    || c = '(' || c = ')'⟩

/-- `create_new_chat` in `src/utils/chat_manager.py` lines 46-61.  Note
the guard `if chat_name:` on line 48: when the argument is `None` (or the
empty string) the sanitisation block — including the call to
`generate_chat_name` — is skipped entirely, and the dict is then indexed
with the unchanged argument. -/
def create_new_chat (s : AppState) (chat_name : Option String) (timestamp : String) :
    AppState :=
  let name : Option String :=
    match chat_name with
    | none => none
    | some n =>
        if n = "" then some n
        else
          let n' := sanitize_chat_name n
          if n' = "" then some (generate_chat_name s.chats.length timestamp) else some n'
  if (s.chats.map Prod.fst).contains name then s
  else
    let msgs : List Message := [⟨"system", AppConfig.DEFAULT_SYSTEM_MESSAGE s.language⟩]
    { s with chats := storePut s.chats name msgs, current_chat := name, messages := msgs }

/-- `clear_current_chat` in `src/utils/chat_manager.py` lines 82-91:
a no-op when the message list is empty; otherwise keep only the system
messages, or fall back to the language default (`system_messages or [...]`),
and write the result back to the store under the current name. -/
def clear_current_chat (s : AppState) : AppState :=
  if s.messages = [] then s
  else
    let system_messages := systemPart s.messages
    let messages' :=
      if system_messages = [] then
        [(⟨"system", AppConfig.DEFAULT_SYSTEM_MESSAGE s.language⟩ : Message)]
      else system_messages
    { s with messages := messages', chats := storePut s.chats s.current_chat messages' }

/-- One element of a parsed JSON array handed to `import_chat`: either an
object carrying both a "role" and a "content" key, or anything else. -/
inductive ImportItem where
  | msg (role content : String)
  | bad

/-- A parsed import file: `json.load` may fail, the document may not be a
list, or it is a list of items. -/
inductive ImportDoc where
  | parseFailure
  | notList
  | list (items : List ImportItem)

/-- `import_chat` in `src/utils/chat_io.py` lines 21-37: any parse or
validation failure is caught and leaves the state unchanged; a list whose
every element has both keys is stored verbatim under
`"Import: " ++ file name` and becomes current. -/
def import_chat (s : AppState) (fileName : String) (doc : ImportDoc) : AppState :=
  match doc with
  | .parseFailure => s
  | .notList => s
  | .list items =>
      if items.all (fun it => match it with | .msg _ _ => true | .bad => false) then
        let chat_data := items.filterMap
          (fun it => match it with | .msg r c => some ⟨r, c⟩ | .bad => none)
        let name := some ("Import: " ++ fileName)
        { s with chats := storePut s.chats name chat_data, current_chat := name, messages := chat_data }
      else s

/-- A conversation with at least one system message. -/
def hasSystem (messages : List Message) : Bool :=
  messages.any fun msg => msg.role == "system"

/-- The store/session invariant of claim C5: every stored conversation and
the current message list contain a system message. -/
def sysInvariant (s : AppState) : Bool :=
  s.chats.all (fun kv => hasSystem kv.2) && hasSystem s.messages

/-- A Session-Controller operation of the kind named by claim C5
(import is modelled separately by `import_chat`). -/
inductive Op where
  | create (chat_name : Option String) (timestamp : String)
  | clear
  | send (user_input : String) (now : ℚ) (outcome : ApiOutcome)

/-- Running one controller operation against the session state. -/
def runOp (s : AppState) : Op → AppState
  | .create name ts => create_new_chat s name ts
  | .clear => clear_current_chat s
  | .send input now outcome => (handle_user_input s input now outcome).1

/-- Running a sequence of controller operations. -/
def runOps (s : AppState) (ops : List Op) : AppState :=
  ops.foldl runOp s


/-! ### Helper lemmas -/

theorem takeLast_eq_drop (n : Nat) (l : List α) :
    takeLast n l = l.drop (l.length - n) := by
  unfold takeLast
  rw [List.take_reverse, List.reverse_reverse]

theorem takeLast_length_le (n : Nat) (l : List α) : (takeLast n l).length ≤ n := by
  rw [takeLast_eq_drop, List.length_drop]
  omega

theorem takeLast_of_length_le (n : Nat) (l : List α) (h : l.length ≤ n) :
    takeLast n l = l := by
  rw [takeLast_eq_drop]
  have : l.length - n = 0 := by omega
  rw [this, List.drop_zero]

theorem takeLast_concat_getLast? (n : Nat) (hn : 0 < n) (l : List α) (a : α) :
    (takeLast n (l ++ [a])).getLast? = some a := by
  unfold takeLast
  rw [List.reverse_append]
  simp only [List.reverse_cons, List.reverse_nil, List.nil_append, List.singleton_append]
  cases n with
  | zero => omega
  | succ m =>
    rw [List.take_succ_cons, List.reverse_cons, List.getLast?_concat]

theorem mem_of_mem_takeLast {n : Nat} {l : List α} {a : α}
    (h : a ∈ takeLast n l) : a ∈ l := by
  rw [takeLast_eq_drop] at h
  exact List.mem_of_mem_drop h

theorem role_of_mem_systemPart {m : Message} {l : List Message}
    (h : m ∈ systemPart l) : m.role = "system" := by
  have := (List.mem_filter.mp h).2
  simpa using this

theorem role_of_mem_otherPart {m : Message} {l : List Message}
    (h : m ∈ otherPart l) : ¬ m.role = "system" := by
  have := (List.mem_filter.mp h).2
  simpa using this

theorem trim_eq_parts (messages : List Message) :
    trim_message_history messages =
      systemPart messages ++ takeLast AppConfig.MAX_HISTORY_LENGTH (otherPart messages) := by
  rw [takeLast_eq_drop]
  rfl

theorem systemPart_append (a b : List Message) :
    systemPart (a ++ b) = systemPart a ++ systemPart b :=
  List.filter_append a b

theorem otherPart_append (a b : List Message) :
    otherPart (a ++ b) = otherPart a ++ otherPart b :=
  List.filter_append a b

theorem systemPart_trim (messages : List Message) :
    systemPart (trim_message_history messages) = systemPart messages := by
  rw [trim_eq_parts, systemPart_append]
  have h1 : systemPart (systemPart messages) = systemPart messages :=
    List.filter_eq_self.mpr fun a ha => by
      simpa using role_of_mem_systemPart ha
  have h2 : systemPart (takeLast AppConfig.MAX_HISTORY_LENGTH (otherPart messages)) = [] :=
    List.filter_eq_nil_iff.mpr fun a ha => by
      simpa using role_of_mem_otherPart (mem_of_mem_takeLast ha)
  rw [h1, h2, List.append_nil]

theorem otherPart_trim (messages : List Message) :
    otherPart (trim_message_history messages) =
      takeLast AppConfig.MAX_HISTORY_LENGTH (otherPart messages) := by
  rw [trim_eq_parts, otherPart_append]
  have h1 : otherPart (systemPart messages) = [] :=
    List.filter_eq_nil_iff.mpr fun a ha => by
      simpa using role_of_mem_systemPart ha
  have h2 : otherPart (takeLast AppConfig.MAX_HISTORY_LENGTH (otherPart messages))
      = takeLast AppConfig.MAX_HISTORY_LENGTH (otherPart messages) :=
    List.filter_eq_self.mpr fun a ha => by
      simpa using role_of_mem_otherPart (mem_of_mem_takeLast ha)
  rw [h1, h2, List.nil_append]

theorem mem_trim_of_system (messages : List Message) (m : Message)
    (hm : m ∈ messages) (hrole : m.role = "system") :
    m ∈ trim_message_history messages := by
  rw [trim_eq_parts]
  apply List.mem_append_left
  exact List.mem_filter.mpr ⟨hm, by simp [hrole]⟩

theorem trim_idem (messages : List Message) :
    trim_message_history (trim_message_history messages) = trim_message_history messages := by
  rw [trim_eq_parts (trim_message_history messages), systemPart_trim, otherPart_trim,
    takeLast_of_length_le _ _ (takeLast_length_le _ _), trim_eq_parts]

theorem lexLe_total (as bs : List Char) : lexLe as bs = true ∨ lexLe bs as = true := by
  induction as generalizing bs with
  | nil => left; rfl
  | cons a as ih =>
    cases bs with
    | nil => right; rfl
    | cons b bs =>
      by_cases hab : a = b
      · subst hab
        rcases ih bs with h | h
        · left; simpa [lexLe] using h
        · right; simpa [lexLe] using h
      · rcases lt_or_gt_of_ne hab with hlt | hgt
        · left; simp [lexLe, hab, hlt]
        · right; simp [lexLe, Ne.symm hab, hgt]

theorem lexLe_trans (as bs cs : List Char) (h1 : lexLe as bs = true)
    (h2 : lexLe bs cs = true) : lexLe as cs = true := by
  induction as generalizing bs cs with
  | nil => rfl
  | cons a as ih =>
    cases bs with
    | nil => simp [lexLe] at h1
    | cons b bs =>
      cases cs with
      | nil => simp [lexLe] at h2
      | cons c cs =>
        by_cases hab : a = b <;> by_cases hbc : b = c
        · subst hab; subst hbc
          simp only [lexLe, if_pos rfl] at h1 h2 ⊢
          exact ih bs cs h1 h2
        · subst hab
          simp only [lexLe, if_pos rfl] at h1
          simp only [lexLe, if_neg hbc] at h2
          simp [lexLe, hbc, of_decide_eq_true h2]
        · subst hbc
          simp only [lexLe, if_neg hab] at h1
          simp [lexLe, hab, of_decide_eq_true h1]
        · simp only [lexLe, if_neg hab] at h1
          simp only [lexLe, if_neg hbc] at h2
          have hac : a < c := lt_trans (of_decide_eq_true h1) (of_decide_eq_true h2)
          simp [lexLe, ne_of_lt hac, hac]

instance : IsTotal String strLeRel :=
  ⟨fun a b => lexLe_total a.data b.data⟩

instance : IsTrans String strLeRel :=
  ⟨fun a b c => lexLe_trans a.data b.data c.data⟩

/-! ### Claims -/

/-- C2: `trim` yields all system messages in order followed by the last
`MAX_HISTORY_LENGTH` non-system messages in order; hence the trimmed
non-system count is at most `MAX_HISTORY_LENGTH` and every system message
survives trimming. -/
theorem claim_trim_shape (messages : List Message) :
    trim_message_history messages =
      systemPart messages ++ takeLast AppConfig.MAX_HISTORY_LENGTH (otherPart messages) ∧
    (otherPart (trim_message_history messages)).length ≤ AppConfig.MAX_HISTORY_LENGTH ∧
    ∀ m ∈ messages, m.role = "system" → m ∈ trim_message_history messages := by
  refine ⟨trim_eq_parts messages, ?_, fun m hm hrole => mem_trim_of_system messages m hm hrole⟩
  rw [otherPart_trim]
  exact takeLast_length_le _ _

theorem claim_trim_shape_witness :
    trim_message_history [(⟨"system", "s"⟩ : Message), ⟨"user", "u"⟩] =
      systemPart [(⟨"system", "s"⟩ : Message), ⟨"user", "u"⟩] ++
        takeLast AppConfig.MAX_HISTORY_LENGTH
          (otherPart [(⟨"system", "s"⟩ : Message), ⟨"user", "u"⟩]) :=
  (claim_trim_shape [⟨"system", "s"⟩, ⟨"user", "u"⟩]).1

/-- C10: the history trimmer is idempotent. -/
theorem claim_trim_idempotent (messages : List Message) :
    trim_message_history (trim_message_history messages) = trim_message_history messages :=
  trim_idem messages

theorem claim_trim_idempotent_witness :
    trim_message_history (trim_message_history [(⟨"user", "u"⟩ : Message)]) =
      trim_message_history [(⟨"user", "u"⟩ : Message)] :=
  claim_trim_idempotent [⟨"user", "u"⟩]

/-- C9: for a missing file, an unreadable file, unparsable JSON, and a
parsed document that is not a mapping, `load_saved_chats` returns normally
with the fallback store, the error (where there is one) surfacing only as
the side-channel notice flag. -/
theorem claim_load_error_fallback :
    load_saved_chats .missingFile = ([("Default", [])], false) ∧
    load_saved_chats .readFailure = ([("Default", [])], true) ∧
    load_saved_chats .parseFailure = ([("Default", [])], true) ∧
    load_saved_chats (.parsed .nonDict) = ([("Default", [])], true) :=
  ⟨rfl, rfl, rfl, rfl⟩

/-- C3: the assembled prompt is the newline-join of "Role: content" lines
for the non-system messages (roles capitalized), and whenever the last
message of the full list has role "user" its content appears once more as
a trailing "User: content" line. -/
theorem claim_prompt_assembly (messages : List Message) (last : Message)
    (hlast : messages.getLast? = some last) :
    promptLines messages = (messages.filter fun msg => msg.role != "system").map
      (fun msg => pyCapitalize msg.role ++ ": " ++ msg.content) ∧
    (last.role = "user" → assembled_prompt messages =
      String.intercalate "\n" (promptLines messages) ++ "\nUser: " ++ last.content) ∧
    (¬ last.role = "user" → assembled_prompt messages =
      String.intercalate "\n" (promptLines messages)) := by
  refine ⟨rfl, ?_, ?_⟩
  · intro h
    simp only [assembled_prompt, hlast, if_pos h]
  · intro h
    simp only [assembled_prompt, hlast, if_neg h]

theorem claim_prompt_assembly_witness :
    assembled_prompt [(⟨"user", "q"⟩ : Message)] =
      String.intercalate "\n" (promptLines [(⟨"user", "q"⟩ : Message)]) ++ "\nUser: " ++ "q" :=
  (claim_prompt_assembly [⟨"user", "q"⟩] ⟨"user", "q"⟩ rfl).2.1 rfl

/-- C4 (failing input): calling `create_new_chat` with the name omitted —
exactly what the New Chat button does (`src/main.py` line 103) — skips the
`if chat_name:` block, so no name is generated and the new conversation is
stored under the Python key `None`; by contrast a provided name is
sanitized as claimed.  This contradicts the claim (and the function's own
docstring, "Create a new chat with automatic naming"). -/
theorem claim_create_chat_omitted_name :
    (create_new_chat
      { chats := [(some "Default", [⟨"system", "S"⟩])], current_chat := some "Default",
        messages := [⟨"system", "S"⟩], language := .en, last_request_time := none,
        is_chat_input_disabled := false } none "01.01.2025 00:00").chats.map Prod.fst
      = [some "Default", none] ∧
    (create_new_chat
      { chats := [(some "Default", [⟨"system", "S"⟩])], current_chat := some "Default",
        messages := [⟨"system", "S"⟩], language := .en, last_request_time := none,
        is_chat_input_disabled := false } (some "My Chat!") "01.01.2025 00:00").chats.map Prod.fst
      = [some "Default", some "My Chat"] := by
  constructor
  · decide
  · decide

theorem map_fst_filter_key (p : String → Bool) (l : List (String × List Message)) :
    (l.filter fun kv => p kv.1).map Prod.fst = (l.map Prod.fst).filter p := by
  induction l with
  | nil => rfl
  | cons kv l ih =>
    by_cases h : p kv.1 = true <;> simp [List.filter_cons, h, ih]

theorem evict_keys_perm (chats : List (String × List Message))
    (hnd : (chats.map Prod.fst).Nodup) (d : Nat) :
    ((chats.filter fun kv =>
        !decide (kv.1 ∈ (List.insertionSort strLeRel (chats.map Prod.fst)).take d)).map
          Prod.fst).Perm
      ((List.insertionSort strLeRel (chats.map Prod.fst)).drop d) := by
  set ks := chats.map Prod.fst with hks
  set srt := List.insertionSort strLeRel ks with hsrt
  have hperm : ks.Perm srt := (List.perm_insertionSort strLeRel ks).symm
  have hnd2 : srt.Nodup := hperm.nodup_iff.mp hnd
  have hnd3 : (srt.take d ++ srt.drop d).Nodup := by
    rw [List.take_append_drop]
    exact hnd2
  have hdisj : (srt.take d).Disjoint (srt.drop d) := List.disjoint_of_nodup_append hnd3
  rw [map_fst_filter_key (fun k => !decide (k ∈ srt.take d)) chats]
  have h1 : (ks.filter fun k => !decide (k ∈ srt.take d)).Perm
      (srt.filter fun k => !decide (k ∈ srt.take d)) := hperm.filter _
  have key : ∀ A B : List String, A.Disjoint B →
      ((A ++ B).filter fun k => !decide (k ∈ A)) = B := by
    intro A B hAB
    rw [List.filter_append]
    have ha : A.filter (fun k => !decide (k ∈ A)) = [] :=
      List.filter_eq_nil_iff.mpr fun a hmem => by simp [hmem]
    have hb : B.filter (fun k => !decide (k ∈ A)) = B :=
      List.filter_eq_self.mpr fun a hmem => by
        have : a ∉ A := fun hin => hAB hin hmem
        simp [this]
    rw [ha, hb, List.nil_append]
  have h2 : (srt.filter fun k => !decide (k ∈ srt.take d)) = srt.drop d := by
    calc (srt.filter fun k => !decide (k ∈ srt.take d))
        = ((srt.take d ++ srt.drop d).filter fun k => !decide (k ∈ srt.take d)) := by
          rw [List.take_append_drop]
      _ = srt.drop d := key _ _ hdisj
  rw [h2] at h1
  exact h1

/-- C1: loading a persisted mapping with more than `MAX_CHATS` entries
returns exactly `MAX_CHATS` entries, all drawn from the original mapping,
and every evicted key is lexicographically strictly below every retained
key — the retained keys are exactly the lexicographically largest
`MAX_CHATS` keys. -/
theorem claim_load_eviction (chats : List (String × List Message))
    (hnd : (chats.map Prod.fst).Nodup)
    (hlen : AppConfig.MAX_CHATS < chats.length) :
    (load_saved_chats (.parsed (.dict chats))).1.length = AppConfig.MAX_CHATS ∧
    (∀ k ∈ (load_saved_chats (.parsed (.dict chats))).1.map Prod.fst,
      k ∈ chats.map Prod.fst) ∧
    (∀ k ∈ (load_saved_chats (.parsed (.dict chats))).1.map Prod.fst,
      ∀ k' ∈ chats.map Prod.fst,
        k' ∉ (load_saved_chats (.parsed (.dict chats))).1.map Prod.fst →
          pyStrLe k' k = true ∧ k' ≠ k) := by
  have hload : (load_saved_chats (.parsed (.dict chats))).1
      = chats.filter fun kv =>
          !decide (kv.1 ∈ (List.insertionSort strLeRel (chats.map Prod.fst)).take
            (chats.length - AppConfig.MAX_CHATS)) := by
    simp only [load_saved_chats, if_pos hlen]
  set d := chats.length - AppConfig.MAX_CHATS with hd
  set srt := List.insertionSort strLeRel (chats.map Prod.fst) with hsrt
  have hperm2 := evict_keys_perm chats hnd d
  have hmemks : ∀ a, a ∈ srt ↔ a ∈ chats.map Prod.fst :=
    fun a => (List.perm_insertionSort strLeRel (chats.map Prod.fst)).mem_iff
  have hsl : srt.length = chats.length := by
    rw [hsrt, (List.perm_insertionSort strLeRel (chats.map Prod.fst)).length_eq,
      List.length_map]
  have hsorted : List.Sorted strLeRel srt :=
    List.sorted_insertionSort strLeRel (chats.map Prod.fst)
  have hpw : List.Pairwise strLeRel (srt.take d ++ srt.drop d) := by
    rw [List.take_append_drop]
    exact hsorted
  have hnd2 : srt.Nodup :=
    ((List.perm_insertionSort strLeRel (chats.map Prod.fst)).symm).nodup_iff.mp hnd
  have hnd3 : (srt.take d ++ srt.drop d).Nodup := by
    rw [List.take_append_drop]
    exact hnd2
  have hdisj : (srt.take d).Disjoint (srt.drop d) := List.disjoint_of_nodup_append hnd3
  refine ⟨?_, ?_, ?_⟩
  · have hlen2 := hperm2.length_eq
    rw [List.length_map] at hlen2
    rw [hload, hlen2, List.length_drop, hsl]
    omega
  · intro k hk
    rw [hload] at hk
    have hk2 : k ∈ srt.drop d := hperm2.mem_iff.mp hk
    exact (hmemks k).mp (List.mem_of_mem_drop hk2)
  · intro k hk k' hk' hnot
    rw [hload] at hk hnot
    have hkdrop : k ∈ srt.drop d := hperm2.mem_iff.mp hk
    have hk'srt : k' ∈ srt := (hmemks k').mpr hk'
    have hk'take : k' ∈ srt.take d := by
      rcases List.mem_append.mp (by rw [List.take_append_drop]; exact hk'srt :
          k' ∈ srt.take d ++ srt.drop d) with h | h
      · exact h
      · exact absurd (hperm2.mem_iff.mpr h) hnot
    refine ⟨(List.pairwise_append.mp hpw).2.2 k' hk'take k hkdrop, ?_⟩
    intro heq
    exact hdisj hk'take (heq ▸ hkdrop)

theorem mem_storePut {store : Store} {k : Option String} {v : List Message}
    {kv : Option String × List Message} (h : kv ∈ storePut store k v) :
    kv ∈ store ∨ kv = (k, v) := by
  unfold storePut at h
  split at h
  · obtain ⟨a, ha, heq⟩ := List.mem_map.mp h
    by_cases hc : a.1 == k
    · right
      rw [if_pos hc] at heq
      exact heq.symm
    · left
      rw [if_neg hc] at heq
      exact heq ▸ ha
  · rcases List.mem_append.mp h with h | h
    · left; exact h
    · right; simpa using h

theorem hasSystem_append_left {a b : List Message} (h : hasSystem a = true) :
    hasSystem (a ++ b) = true := by
  unfold hasSystem at h ⊢
  rw [List.any_append, h, Bool.true_or]

theorem hasSystem_trim {messages : List Message} (h : hasSystem messages = true) :
    hasSystem (trim_message_history messages) = true := by
  unfold hasSystem at h ⊢
  obtain ⟨m, hm, hrole⟩ := List.any_eq_true.mp h
  exact List.any_eq_true.mpr
    ⟨m, mem_trim_of_system _ m hm (by simpa using hrole), hrole⟩

theorem hasSystem_systemPart {messages : List Message}
    (h : ¬ systemPart messages = []) : hasSystem (systemPart messages) = true := by
  unfold hasSystem
  obtain ⟨m, hm⟩ := List.exists_mem_of_ne_nil _ h
  exact List.any_eq_true.mpr ⟨m, hm, by simp [role_of_mem_systemPart hm]⟩

theorem sysInvariant_chats {s : AppState} (h : sysInvariant s = true) :
    ∀ kv ∈ s.chats, hasSystem kv.2 = true := by
  unfold sysInvariant at h
  exact fun kv hkv => List.all_eq_true.mp (Bool.and_elim_left h) kv hkv

theorem sysInvariant_messages {s : AppState} (h : sysInvariant s = true) :
    hasSystem s.messages = true := by
  unfold sysInvariant at h
  exact Bool.and_elim_right h

theorem sysInvariant_mk {s : AppState}
    (hc : ∀ kv ∈ s.chats, hasSystem kv.2 = true)
    (hm : hasSystem s.messages = true) : sysInvariant s = true := by
  unfold sysInvariant
  rw [List.all_eq_true.mpr hc, hm]
  rfl

theorem sysInvariant_storePut {s : AppState} {chats' : Store}
    {k : Option String} {v : List Message}
    (h : sysInvariant s = true) (hchats : chats' = storePut s.chats k v)
    (hv : hasSystem v = true) :
    ∀ kv ∈ chats', hasSystem kv.2 = true := by
  intro kv hkv
  rw [hchats] at hkv
  rcases mem_storePut hkv with hold | hnew
  · exact sysInvariant_chats h kv hold
  · rw [hnew]
    exact hv

theorem hasSystem_default (lang : Lang) :
    hasSystem [(⟨"system", AppConfig.DEFAULT_SYSTEM_MESSAGE lang⟩ : Message)] = true := by
  rfl

theorem sysInvariant_create (s : AppState) (name : Option String) (ts : String)
    (h : sysInvariant s = true) :
    sysInvariant (create_new_chat s name ts) = true := by
  unfold create_new_chat
  dsimp only
  split
  · exact h
  · exact sysInvariant_mk
      (sysInvariant_storePut h rfl (hasSystem_default s.language))
      (hasSystem_default s.language)

theorem sysInvariant_clear (s : AppState) (h : sysInvariant s = true) :
    sysInvariant (clear_current_chat s) = true := by
  unfold clear_current_chat
  dsimp only
  split
  · exact h
  · set messages' := if systemPart s.messages = []
      then [(⟨"system", AppConfig.DEFAULT_SYSTEM_MESSAGE s.language⟩ : Message)]
      else systemPart s.messages with hm'
    have hv : hasSystem messages' = true := by
      rw [hm']
      split
      · exact hasSystem_default s.language
      · exact hasSystem_systemPart (by assumption)
    exact sysInvariant_mk (sysInvariant_storePut h rfl hv) hv

theorem sysInvariant_send (s : AppState) (input : String) (now : ℚ) (o : ApiOutcome)
    (h : sysInvariant s = true) :
    sysInvariant (handle_user_input s input now o).1 = true := by
  unfold handle_user_input
  dsimp only
  split
  · exact h
  · split
    · exact sysInvariant_mk (sysInvariant_chats h) (sysInvariant_messages h)
    · have hmsg1 : hasSystem (s.messages ++ [(⟨"user", input⟩ : Message)]) = true :=
        hasSystem_append_left (sysInvariant_messages h)
      split
      · rename_i text heq
        have hmsg2 : hasSystem ((s.messages ++ [(⟨"user", input⟩ : Message)])
            ++ [(⟨"assistant", text⟩ : Message)]) = true := hasSystem_append_left hmsg1
        refine sysInvariant_mk ?_ hmsg2
        intro kv hkv
        rcases mem_storePut hkv with hkv1 | hnew
        · rcases mem_storePut hkv1 with hold | hnew1
          · exact sysInvariant_chats h kv hold
          · rw [hnew1]
            exact hasSystem_trim hmsg1
        · rw [hnew]
          exact hasSystem_trim hmsg2
      · refine sysInvariant_mk ?_ hmsg1
        intro kv hkv
        rcases mem_storePut hkv with hold | hnew
        · exact sysInvariant_chats h kv hold
        · rw [hnew]
          exact hasSystem_trim hmsg1

theorem sysInvariant_runOp (s : AppState) (op : Op) (h : sysInvariant s = true) :
    sysInvariant (runOp s op) = true := by
  cases op with
  | create name ts => exact sysInvariant_create s name ts h
  | clear => exact sysInvariant_clear s h
  | send input now o => exact sysInvariant_send s input now o h

/-- C5 (amended): every sequence of create, clear and send operations
preserves the invariant that each stored conversation and the current
message list contain a system message; `import_chat`, by contrast, stores
the imported list verbatim and can violate it (see the counterexample). -/
theorem claim_sys_invariant_ops (ops : List Op) (s : AppState)
    (h : sysInvariant s = true) : sysInvariant (runOps s ops) = true := by
  induction ops generalizing s with
  | nil => exact h
  | cons op ops ih => exact ih (runOp s op) (sysInvariant_runOp s op h)

theorem claim_sys_invariant_ops_witness :
    sysInvariant
      { chats := [(some "Default", [⟨"system", "S"⟩])], current_chat := some "Default",
        messages := [⟨"system", "S"⟩], language := .en, last_request_time := none,
        is_chat_input_disabled := false } = true ∧
    sysInvariant (runOps
      { chats := [(some "Default", [⟨"system", "S"⟩])], current_chat := some "Default",
        messages := [⟨"system", "S"⟩], language := .en, last_request_time := none,
        is_chat_input_disabled := false }
      [.create none "01.01.2025 00:00", .send "hi" 0 .timeout, .clear]) = true :=
  ⟨by decide, claim_sys_invariant_ops [.create none "01.01.2025 00:00",
    .send "hi" 0 .timeout, .clear] _ (by decide)⟩

/-- C5 as stated is refuted: `import_chat` — one of the operations the
claim quantifies over — accepts a list whose elements all carry "role" and
"content" keys but contain no system message, and stores it verbatim,
producing a stored conversation with zero system messages. -/
theorem claim_sys_invariant_counterexample :
    sysInvariant
      { chats := [(some "Default", [⟨"system", "S"⟩])], current_chat := some "Default",
        messages := [⟨"system", "S"⟩], language := .en, last_request_time := none,
        is_chat_input_disabled := false } = true ∧
    ((import_chat
      { chats := [(some "Default", [⟨"system", "S"⟩])], current_chat := some "Default",
        messages := [⟨"system", "S"⟩], language := .en, last_request_time := none,
        is_chat_input_disabled := false } "chat.json"
      (.list [.msg "user" "hi"])).chats.any fun kv => !hasSystem kv.2) = true := by
  constructor
  · decide
  · decide

theorem claim_load_eviction_witness :
    (((List.range 51).map fun i =>
      ((⟨List.replicate i 'a'⟩ : String), ([] : List Message))).map Prod.fst).Nodup ∧
    AppConfig.MAX_CHATS <
      ((List.range 51).map fun i =>
        ((⟨List.replicate i 'a'⟩ : String), ([] : List Message))).length ∧
    (load_saved_chats (.parsed (.dict ((List.range 51).map fun i =>
      ((⟨List.replicate i 'a'⟩ : String), ([] : List Message)))))).1.length
      = AppConfig.MAX_CHATS :=
  ⟨by decide, by decide,
    (claim_load_eviction _ (by decide) (by decide)).1⟩

theorem trim_getLast?_concat (l : List Message) (u : Message) (hu : ¬ u.role = "system") :
    (trim_message_history (l ++ [u])).getLast? = some u := by
  rw [trim_eq_parts, List.getLast?_append]
  have hop : otherPart (l ++ [u]) = otherPart l ++ [u] := by
    rw [otherPart_append]
    congr 1
    simp [otherPart, hu]
  rw [hop, takeLast_concat_getLast? AppConfig.MAX_HISTORY_LENGTH (by decide) (otherPart l) u]
  rfl

/-- C6: for a timeout, a network/status error, a malformed response body,
and an empty or whitespace-only completion text, the client hands the
caller nothing usable, and `handle_user_input` appends no assistant
message: the appended user message is the last message, the new state's
store holds the trimmed conversation ending in that user message, and
exactly that store was persisted. -/
theorem claim_completion_failure (s : AppState) (input : String) (now : ℚ)
    (outcome : ApiOutcome)
    (hv : validate_message input = true)
    (hr : (rate_limit_check s.last_request_time now).1 = true)
    (hfail : outcome = .timeout ∨ outcome = .requestError ∨ outcome = .malformedBody ∨
      ∃ t rest, outcome = .body (some (t :: rest)) ∧ pyStrip t = "") :
    (outcome = .timeout ∨ outcome = .requestError ∨ outcome = .malformedBody →
      get_model_response outcome = none) ∧
    extractAssistantText (get_model_response outcome) = none ∧
    (handle_user_input s input now outcome).1.messages
      = s.messages ++ [⟨"user", input⟩] ∧
    (handle_user_input s input now outcome).1.messages.getLast? = some ⟨"user", input⟩ ∧
    (handle_user_input s input now outcome).1.chats
      = storePut s.chats s.current_chat
          (trim_message_history (s.messages ++ [⟨"user", input⟩])) ∧
    (trim_message_history (s.messages ++ [⟨"user", input⟩])).getLast? = some ⟨"user", input⟩ ∧
    (handle_user_input s input now outcome).2.1
      = [storePut s.chats s.current_chat
          (trim_message_history (s.messages ++ [⟨"user", input⟩]))] := by
  have hext : extractAssistantText (get_model_response outcome) = none := by
    rcases hfail with h | h | h | ⟨t, rest, h, hstrip⟩ <;> subst h
    · rfl
    · rfl
    · rfl
    · simp [get_model_response, extractAssistantText, hstrip]
  have hnone : outcome = .timeout ∨ outcome = .requestError ∨ outcome = .malformedBody →
      get_model_response outcome = none := by
    intro h
    rcases h with h | h | h <;> subst h <;> rfl
  have hstep : handle_user_input s input now outcome
      = Prod.mk
          { s with
            last_request_time := (rate_limit_check s.last_request_time now).2,
            messages := s.messages ++ [⟨"user", input⟩],
            chats := storePut s.chats s.current_chat
              (trim_message_history (s.messages ++ [⟨"user", input⟩])),
            is_chat_input_disabled := false }
          ([storePut s.chats s.current_chat
            (trim_message_history (s.messages ++ [⟨"user", input⟩]))], true) := by
    unfold handle_user_input
    dsimp only
    rw [hv, if_neg (by simp : ¬(true = false)), hr,
      if_neg (by simp : ¬(true = false)), hext]
  refine ⟨hnone, hext, ?_, ?_, ?_, ?_, ?_⟩
  · rw [hstep]
  · rw [hstep]
    exact List.getLast?_concat s.messages
  · rw [hstep]
  · exact trim_getLast?_concat s.messages ⟨"user", input⟩ (by simp)
  · rw [hstep]

theorem claim_completion_failure_witness :
    (handle_user_input
      { chats := [(some "Default", [⟨"system", "S"⟩])], current_chat := some "Default",
        messages := [⟨"system", "S"⟩], language := .en, last_request_time := none,
        is_chat_input_disabled := false } "hello" 0 .timeout).1.messages
      = [(⟨"system", "S"⟩ : Message)] ++ [⟨"user", "hello"⟩] :=
  (claim_completion_failure
    { chats := [(some "Default", [⟨"system", "S"⟩])], current_chat := some "Default",
      messages := [⟨"system", "S"⟩], language := .en, last_request_time := none,
      is_chat_input_disabled := false } "hello" 0 .timeout
    (by decide) rfl (Or.inl rfl)).2.2.1

/-- C8: an input that strips to the empty string, or that exceeds 4096
characters, makes `handle_user_input` a silent no-op: the state is
returned unchanged, nothing is persisted and no completion request is
issued. -/
theorem claim_invalid_input_noop (s : AppState) (input : String) (now : ℚ)
    (outcome : ApiOutcome) (h : pyStrip input = "" ∨ 4096 < input.length) :
    handle_user_input s input now outcome = (s, [], false) := by
  have hv : validate_message input = false := by
    unfold validate_message
    split
    · rfl
    · rename_i hcond
      rw [if_pos]
      rcases h with h | h
      · exact absurd (by simp [h]) hcond
      · exact h
  unfold handle_user_input
  rw [hv, if_pos rfl]

theorem claim_invalid_input_noop_witness :
    pyStrip " " = "" ∧
    handle_user_input
      { chats := [(some "Default", [⟨"system", "S"⟩])], current_chat := some "Default",
        messages := [⟨"system", "S"⟩], language := .en, last_request_time := none,
        is_chat_input_disabled := false } " " 0 .timeout
      = Prod.mk
          { chats := [(some "Default", [⟨"system", "S"⟩])], current_chat := some "Default",
            messages := [⟨"system", "S"⟩], language := .en, last_request_time := none,
            is_chat_input_disabled := false }
          ([], false) :=
  ⟨by decide, claim_invalid_input_noop _ " " 0 .timeout (Or.inl (by decide))⟩

theorem rate_step_snd (last : Option ℚ) (t : ℚ) :
    (rate_limit_check last t).2
      = if (rate_limit_check last t).1 = true then some t else last := by
  cases last with
  | none => rfl
  | some l =>
    unfold rate_limit_check
    dsimp only
    split
    · simp
    · simp

theorem rateFinal_eq_lastAllowed (ts : List ℚ) : ∀ last : Option ℚ,
    rateFinal last ts = lastAllowedTime last (rateTrace last ts) := by
  induction ts with
  | nil => intro last; rfl
  | cons t ts ih =>
    intro last
    show rateFinal (rate_limit_check last t).2 ts
        = lastAllowedTime last
            ((t, (rate_limit_check last t).1) :: rateTrace (rate_limit_check last t).2 ts)
    rw [ih]
    unfold lastAllowedTime
    rw [List.foldl_cons]
    congr 1
    simpa using rate_step_snd last t

theorem set_last_self (s : AppState) (v : Option ℚ) (h : s.last_request_time = v) :
    { s with last_request_time := v } = s := by
  cases s
  subst h
  rfl

theorem handle_last_time (s : AppState) (i : String) (t : ℚ) (o : ApiOutcome)
    (hv : validate_message i = true) (hn : s.last_request_time = none) :
    (handle_user_input s i t o).1.last_request_time = some t := by
  unfold handle_user_input
  dsimp only
  rw [hv, if_neg (by simp : ¬(true = false)), hn]
  dsimp only [rate_limit_check]
  rw [if_neg (by simp : ¬(true = false))]
  split
  · rfl
  · rfl

/-- C7: the first `rate_limit_check` of a session is allowed and records
the time; against a recorded time, a call is allowed exactly when at least
one second has elapsed; the recorded time is updated exactly on allowed
calls, so it always equals the time of the last allowed call; and of two
`handle_user_input` calls less than one second apart, the second is a
complete no-op (no request, no append, no persist). -/
theorem claim_rate_limiter :
    (∀ t : ℚ, rate_limit_check none t = (true, some t)) ∧
    (∀ l t : ℚ, ((rate_limit_check (some l) t).1 = true ↔ 1 ≤ t - l)) ∧
    (∀ (last : Option ℚ) (t : ℚ), (rate_limit_check last t).2
      = if (rate_limit_check last t).1 = true then some t else last) ∧
    (∀ (ts : List ℚ) (last : Option ℚ),
      rateFinal last ts = lastAllowedTime last (rateTrace last ts)) ∧
    (∀ (s : AppState) (i1 i2 : String) (t1 t2 : ℚ) (o1 o2 : ApiOutcome),
      validate_message i1 = true → validate_message i2 = true →
      s.last_request_time = none → t2 - t1 < 1 →
      handle_user_input (handle_user_input s i1 t1 o1).1 i2 t2 o2
        = ((handle_user_input s i1 t1 o1).1, [], false)) := by
  refine ⟨fun t => rfl, ?_, rate_step_snd, fun ts last => rateFinal_eq_lastAllowed ts last, ?_⟩
  · intro l t
    unfold rate_limit_check
    dsimp only
    split
    · rename_i hlt
      constructor
      · intro hfalse
        exact absurd hfalse (by simp)
      · intro hge
        linarith
    · rename_i hge
      constructor
      · intro _
        linarith [not_lt.mp hge]
      · intro _
        rfl
  · intro s i1 i2 t1 t2 o1 o2 hv1 hv2 hn hlt
    have hl1 : (handle_user_input s i1 t1 o1).1.last_request_time = some t1 :=
      handle_last_time s i1 t1 o1 hv1 hn
    have hrc : rate_limit_check (some t1) t2 = (false, some t1) := by
      unfold rate_limit_check
      dsimp only
      rw [if_pos hlt]
    set s1 := (handle_user_input s i1 t1 o1).1 with hs1
    unfold handle_user_input
    dsimp only
    rw [hv2, if_neg (by simp : ¬(true = false)), hl1, hrc]
    dsimp only
    rw [if_pos rfl, set_last_self s1 (some t1) hl1]

theorem claim_rate_limiter_witness :
    handle_user_input
      (handle_user_input
        { chats := [(some "Default", [⟨"system", "S"⟩])], current_chat := some "Default",
          messages := [⟨"system", "S"⟩], language := .en, last_request_time := none,
          is_chat_input_disabled := false } "hi" 0 .timeout).1 "again" (1/2) .timeout
      = ((handle_user_input
          { chats := [(some "Default", [⟨"system", "S"⟩])], current_chat := some "Default",
            messages := [⟨"system", "S"⟩], language := .en, last_request_time := none,
            is_chat_input_disabled := false } "hi" 0 .timeout).1, [], false) :=
  claim_rate_limiter.2.2.2.2 _ "hi" "again" 0 (1/2) .timeout .timeout
    (by decide) (by decide) rfl (by norm_num)


end LLMChat
